import Mathlib

/-!
Shallow embedding of the proxmox-api-macro annotation compiler core:
the annotation value model and object operations, the
CommonTypeDefinition and ParameterDefinition builders, the CLI mode
resolver (src/proxmox-api-macro/src/api_def.rs) and the enum schema
generator (src/proxmox-api-macro/src/api/enums.rs), together with
theorems settling the specification claims about them.
-/

namespace Proxmox

/-- Source spans are modelled as plain numbers; they carry no semantics
and are used only in diagnostics. -/
abbrev Span := Nat

/-- A compile-time diagnostic: an optional source span plus a message.
Spanned failures correspond to the spanned bail macro of the source,
unspanned ones to a plain bail. -/
structure Err where
  span : Option Span
  msg : String
deriving Repr, DecidableEq

/-- A string literal together with its span (syn LitStr). -/
structure LitStr where
  str : String
  span : Span
deriving Repr, DecidableEq

/-- A path (syn Path): a list of segment identifiers. The embedding
keeps one span for the whole path rather than per-segment spans; spans
carry no semantics. -/
structure Path where
  segments : List String
  span : Span
deriving Repr, DecidableEq

/-- Modelled from the spec: the parsing module (super::parsing) is not
part of the sources under src, so the value model follows section 3 of
the spec: string literal, boolean literal, bare identifier, dotted
path, nested object and opaque expression, each carrying a span. -/
inductive Value where
  | strLit (s : String) (span : Span)
  | boolLit (b : Bool) (span : Span)
  | identV (name : String) (span : Span)
  | pathV (segments : List String) (span : Span)
  | object (span : Span) (entries : List (String × Span × Value))
  | exprV (code : String) (span : Span)

/-- An object entry: key text, key span, value. -/
abbrev Entry := String × Span × Value

/-- Modelled from the spec: an Object is an ordered key-to-value
mapping preserving declaration order, with a span for the whole
object. -/
structure Object where
  span : Span
  entries : List Entry

/-- Span of a value. -/
def Value.span : Value → Span
  | .strLit _ sp => sp
  | .boolLit _ sp => sp
  | .identV _ sp => sp
  | .pathV _ sp => sp
  | .object sp _ => sp
  | .exprV _ sp => sp

/-- Modelled from the spec: coercion to a string literal fails with a
type mismatch diagnostic at the offending value. -/
def Value.expect_lit_str : Value → Except Err LitStr
  | .strLit s sp => .ok ⟨s, sp⟩
  | v => .error ⟨some v.span, "expected string literal"⟩

/-- Modelled from the spec: every value shape except a nested object is
a valid code expression; a nested object fails with a type mismatch. -/
def Value.expect_expr : Value → Except Err Value
  | .object sp _ => .error ⟨some sp, "expected expression"⟩
  | v => .ok v

/-- Modelled from the spec: coercion to a path accepts bare identifiers
(one segment) and dotted paths. -/
def Value.expect_path : Value → Except Err Path
  | .identV n sp => .ok ⟨[n], sp⟩
  | .pathV segs sp => .ok ⟨segs, sp⟩
  | v => .error ⟨some v.span, "expected path"⟩

/-- Modelled from the spec: test whether the value is exactly the given
bare identifier. -/
def Value.is_ident (v : Value) (s : String) : Bool :=
  match v with
  | .identV n _ => n == s
  | _ => false

/-- Modelled from the spec: extract a boolean literal if the value is
one. -/
def Value.is_lit_bool : Value → Option (Bool × Span)
  | .boolLit b sp => some (b, sp)
  | _ => none

/-- First value stored under the given key. -/
def lookupEntries : List Entry → String → Option Value
  | [], _ => none
  | (k, _, v) :: rest, key => if k == key then some v else lookupEntries rest key

/-- Entries with the first occurrence of the given key removed. -/
def removeFirst : List Entry → String → List Entry
  | [], _ => []
  | (k, sp, v) :: rest, key =>
    if k == key then rest else (k, sp, v) :: removeFirst rest key

/-- Lookup on an object. -/
def Object.get (o : Object) (k : String) : Option Value :=
  lookupEntries o.entries k

/-- Key membership test on an object. -/
def Object.containsKey (o : Object) (k : String) : Bool :=
  (lookupEntries o.entries k).isSome

/-- Whether an Except value is a success. -/
def isOkE {ε α : Type} : Except ε α → Bool
  | .ok _ => true
  | .error _ => false

/-- CLI parsing mode (api_def.rs). -/
inductive CliMode where
  | disabled
  | parseCli
  | fromStr
  | function (f : Value)

/-- The default CLI mode is ParseCli (impl Default for CliMode). -/
instance : Inhabited CliMode :=
  ⟨CliMode.parseCli⟩

/-- CLI mode resolution (impl TryFrom for CliMode in api_def.rs): first
the FromStr identifier test, then boolean literals, then the fallback
treating the value as a function expression. -/
def CliMode.tryFrom (expr : Value) : Except Err CliMode :=
  if expr.is_ident "FromStr" then .ok CliMode.fromStr
  else
    match expr.is_lit_bool with
    | some bv => .ok (if bv.1 then CliMode.parseCli else CliMode.disabled)
    | none =>
      match expr.expect_expr with
      | .ok e => .ok (CliMode.function e)
      | .error err => .error err

/-- CommonTypeDefinition (api_def.rs): a required description plus a
CLI mode. -/
structure CommonTypeDefinition where
  description : LitStr
  cli : CliMode

/-- Builder draft for CommonTypeDefinition; description has no default,
cli falls back to the CliMode default. -/
structure CommonTypeDefinitionBuilder where
  description : Option LitStr := none
  cli : Option CliMode := none

/-- Builder finalization (derive Builder): fails when the required
description field was never set; an unset cli falls back to the
default. The message models the uninitialized-field report of the
builder library. -/
def CommonTypeDefinitionBuilder.build (b : CommonTypeDefinitionBuilder) :
    Except String CommonTypeDefinition :=
  match b.description with
  | some d => .ok ⟨d, b.cli.getD CliMode.parseCli⟩
  | none => .error "field description must be initialized"

/-- CommonTypeDefinition::from_object: removes the description key
(coerced to a string literal) and the cli key (resolved to a CliMode)
from the object, then finalizes the builder; the remaining object is
returned alongside. A build failure is reported without a span (plain
bail in the source). -/
def CommonTypeDefinition.from_object (obj : Object) :
    Except Err (CommonTypeDefinition × Object) :=
  match (match lookupEntries obj.entries "description" with
         | some v => (Value.expect_lit_str v).map
             fun s => ({ description := some s, cli := none } : CommonTypeDefinitionBuilder)
         | none => .ok { description := none, cli := none }) with
  | .error e => .error e
  | .ok b =>
    match (match lookupEntries (removeFirst obj.entries "description") "cli" with
           | some v => (CliMode.tryFrom v).map fun m => { b with cli := some m }
           | none => .ok b) with
    | .error e => .error e
    | .ok b2 =>
      match b2.build with
      | .ok r => .ok (r, ⟨obj.span, removeFirst (removeFirst obj.entries "description") "cli"⟩)
      | .error e => .error ⟨none, e⟩

/-- ParameterDefinition (api_def.rs): all fields optional, absence of a
key leaves the corresponding field unset. -/
structure ParameterDefinition where
  default : Option Value := none
  description : Option LitStr := none
  maximum : Option Value := none
  minimum : Option Value := none
  maximum_length : Option Value := none
  minimum_length : Option Value := none
  validate : Option Value := none
  format : Option Path := none
  pattern : Option Value := none
  serialize_with : Option Path := none
  deserialize_with : Option Path := none

/-- Builder draft for ParameterDefinition: an outer none means the
setter was never called; every field has a builder default. -/
structure ParameterDefinitionBuilder where
  default : Option (Option Value) := none
  description : Option (Option LitStr) := none
  maximum : Option (Option Value) := none
  minimum : Option (Option Value) := none
  maximum_length : Option (Option Value) := none
  minimum_length : Option (Option Value) := none
  validate : Option (Option Value) := none
  format : Option (Option Path) := none
  pattern : Option (Option Value) := none
  serialize_with : Option (Option Path) := none
  deserialize_with : Option (Option Path) := none

/-- Builder finalization for ParameterDefinition: since every field has
a builder default, finalization substitutes the defaults and cannot
fail; the result type mirrors the fallible signature of the generated
build function. -/
def ParameterDefinitionBuilder.build (b : ParameterDefinitionBuilder) :
    Except String ParameterDefinition :=
  .ok
    { default := b.default.getD none
      description := b.description.getD none
      maximum := b.maximum.getD none
      minimum := b.minimum.getD none
      maximum_length := b.maximum_length.getD none
      minimum_length := b.minimum_length.getD none
      validate := b.validate.getD none
      format := b.format.getD none
      pattern := b.pattern.getD none
      serialize_with := b.serialize_with.getD none
      deserialize_with := b.deserialize_with.getD none }

/-- One validated field update, produced from one recognized object
entry of ParameterDefinition::from_object. -/
inductive FieldUpdate where
  | setDefault (v : Value)
  | setDescription (s : LitStr)
  | setMaximum (v : Value)
  | setMinimum (v : Value)
  | setMaximumLength (v : Value)
  | setMinimumLength (v : Value)
  | setValidate (v : Value)
  | setFormat (p : Path)
  | setPattern (v : Value)
  | setSerializeWith (p : Path)
  | setDeserializeWith (p : Path)
  | setSerialization (ser de : Path)

/-- The twelve keys accepted by ParameterDefinition::from_object: the
eleven field names plus the serialization sugar key. -/
def recognizedKey (k : String) : Bool :=
  k == "default" || k == "description" || k == "maximum" || k == "minimum" ||
  k == "maximum_length" || k == "minimum_length" || k == "validate" ||
  k == "format" || k == "pattern" || k == "serialize_with" ||
  k == "deserialize_with" || k == "serialization"

/-- The per-entry dispatch of ParameterDefinition::from_object: each
recognized key coerces its value to the required shape; the
serialization sugar key expands a path p into p::serialize and
p::deserialize; any other key is rejected naming the key at its
span. -/
def parseEntry (e : Entry) : Except Err FieldUpdate :=
  let key := e.1
  let ksp := e.2.1
  let value := e.2.2
  if key == "default" then FieldUpdate.setDefault <$> value.expect_expr
  else if key == "description" then FieldUpdate.setDescription <$> value.expect_lit_str
  else if key == "maximum" then FieldUpdate.setMaximum <$> value.expect_expr
  else if key == "minimum" then FieldUpdate.setMinimum <$> value.expect_expr
  else if key == "maximum_length" then FieldUpdate.setMaximumLength <$> value.expect_expr
  else if key == "minimum_length" then FieldUpdate.setMinimumLength <$> value.expect_expr
  else if key == "validate" then FieldUpdate.setValidate <$> value.expect_expr
  else if key == "format" then FieldUpdate.setFormat <$> value.expect_path
  else if key == "pattern" then FieldUpdate.setPattern <$> value.expect_expr
  else if key == "serialize_with" then FieldUpdate.setSerializeWith <$> value.expect_path
  else if key == "deserialize_with" then FieldUpdate.setDeserializeWith <$> value.expect_path
  else if key == "serialization" then
    (Value.expect_path value).map fun p =>
      FieldUpdate.setSerialization
        ⟨p.segments ++ ["serialize"], p.span⟩
        ⟨p.segments ++ ["deserialize"], p.span⟩
  else .error ⟨some ksp, "invalid key in type definition: " ++ key⟩

/-- Apply one validated field update to the builder draft; a later
update to the same field overwrites an earlier one. -/
def applyUpdate (b : ParameterDefinitionBuilder) (u : FieldUpdate) :
    ParameterDefinitionBuilder :=
  match u with
  | .setDefault v => { b with default := some (some v) }
  | .setDescription s => { b with description := some (some s) }
  | .setMaximum v => { b with maximum := some (some v) }
  | .setMinimum v => { b with minimum := some (some v) }
  | .setMaximumLength v => { b with maximum_length := some (some v) }
  | .setMinimumLength v => { b with minimum_length := some (some v) }
  | .setValidate v => { b with validate := some (some v) }
  | .setFormat p => { b with format := some (some p) }
  | .setPattern v => { b with pattern := some (some v) }
  | .setSerializeWith p => { b with serialize_with := some (some p) }
  | .setDeserializeWith p => { b with deserialize_with := some (some p) }
  | .setSerialization ser de =>
    { b with deserialize_with := some (some de), serialize_with := some (some ser) }

/-- The entry loop of ParameterDefinition::from_object: entries are
processed in object order, stopping at the first failing entry. -/
def applyEntries (b : ParameterDefinitionBuilder) :
    List Entry → Except Err ParameterDefinitionBuilder
  | [] => .ok b
  | e :: rest =>
    match parseEntry e with
    | .ok u => applyEntries (applyUpdate b u) rest
    | .error err => .error err

/-- ParameterDefinition::from_object: fold the entries into the builder
draft in object order, then finalize; a finalization failure would be
reported at the object span. -/
def ParameterDefinition.from_object (obj : Object) :
    Except Err ParameterDefinition :=
  match applyEntries {} obj.entries with
  | .ok b =>
    match b.build with
    | .ok r => .ok r
    | .error e => .error ⟨some obj.span, e⟩
  | .error e => .error e

/-- A literal found inside an attribute argument (syn Lit): a string
literal, or any other literal shape. -/
inductive Lit where
  | str (s : String) (span : Span)
  | otherLit (span : Span)

/-- One parsed argument of a tagged sub-annotation (syn NestedMeta):
either a name-equals-literal pair or any other shape, which the scan
ignores. The raw attribute tokens of the source are modelled in their
parsed form. -/
inductive NestedMeta where
  | nameValue (path : String) (lit : Lit)
  | otherMeta (span : Span)

/-- An attribute on an enum variant: its path (as a single identifier
text, matching the is_ident test of the source) and its parenthesized
argument list in parsed form. -/
structure Attr where
  pathIdent : String
  args : List NestedMeta

/-- The shape of an enum variant: a unit variant, or any variant
carrying fields (tuple or named). -/
inductive Fields where
  | unit
  | nonUnit

/-- An enum variant (syn Variant): identifier with its span, the span
of the whole variant, its attributes and its field shape. -/
structure Variant where
  ident : String
  identSpan : Span
  span : Span
  attrs : List Attr
  fields : Fields

/-- An enum item (syn ItemEnum): identifier with its span, the span of
the enum keyword, and the variants in declaration order. -/
structure ItemEnum where
  ident : String
  identSpan : Span
  enumTokenSpan : Span
  variants : List Variant

/-- The opaque code fragment produced by the Schema collaborator. -/
structure TokenStream where
  code : String

/-- The emitted output of handle_enum, mirroring the quoted template of
the source: the enum definition re-emitted as is, followed by an impl
block on the enum type adding one public associated constant holding
the base schema with the enum-string format listing the resolved
variant names. -/
structure EnumOutput where
  enumDef : ItemEnum
  name : String
  nameSpan : Span
  schema : TokenStream
  variantNames : List LitStr

/-- The first stage of handle_enum: insert a default type key
identifying a generic string type when the annotation object lacks
one. The key span of the inserted entry models a call-site span. -/
def adjustAttribs (attribs : Object) (enum_ty : ItemEnum) : Object :=
  if attribs.containsKey "type" then attribs
  else ⟨attribs.span, attribs.entries ++ [("type", 0, Value.identV "String" enum_ty.enumTokenSpan)]⟩

/-- The inner argument scan of the per-variant attribute loop of
handle_enum: a rename argument with a string literal pushes the
literal and marks the variant renamed; a rename argument with any
other literal is an error; every other argument is ignored. -/
def scanArgs : List LitStr × Bool → List NestedMeta → Except Err (List LitStr × Bool)
  | acc, [] => .ok acc
  | acc, NestedMeta.nameValue p lit :: rest =>
    if p == "rename" then
      match lit with
      | Lit.str s sp => scanArgs (acc.1 ++ [⟨s, sp⟩], true) rest
      | Lit.otherLit sp => .error ⟨some sp, "rename value must be a string literal"⟩
    else scanArgs acc rest
  | acc, NestedMeta.otherMeta _ :: rest => scanArgs acc rest

/-- The attribute loop of handle_enum over one variant: only serde
attributes are scanned, in order. -/
def scanAttrs : List LitStr × Bool → List Attr → Except Err (List LitStr × Bool)
  | acc, [] => .ok acc
  | acc, a :: rest =>
    if a.pathIdent == "serde" then
      match scanArgs acc a.args with
      | .ok acc2 => scanAttrs acc2 rest
      | .error e => .error e
    else scanAttrs acc rest

/-- The names one variant contributes to the enum-string list: the
pushed rename literals, or the variant identifier itself when no
rename argument marked it renamed. -/
def resolveVariantNames (v : Variant) : Except Err (List LitStr) :=
  match scanAttrs ([], false) v.attrs with
  | .ok (names, renamed) =>
    .ok (if renamed then names else names ++ [⟨v.ident, v.identSpan⟩])
  | .error e => .error e

/-- The variant loop of handle_enum: in declaration order, a non-unit
variant aborts the whole generation; a unit variant contributes its
resolved names. -/
def collectVariants (acc : List LitStr) :
    List Variant → Except Err (List LitStr)
  | [] => .ok acc
  | v :: rest =>
    match v.fields with
    | Fields.unit =>
      match resolveVariantNames v with
      | .ok ns => collectVariants (acc ++ ns) rest
      | .error e => .error e
    | Fields.nonUnit => .error ⟨some v.span, "api macro does not support enums with fields"⟩

/-- handle_enum (api/enums.rs): insert the default type key if missing,
reject an explicit format key, build the base schema through the
opaque Schema collaborator (passed as the schemaBuild argument), then
resolve the variant names in declaration order and emit the original
enum plus the schema constant. -/
def handle_enum (schemaBuild : Object → Except Err TokenStream)
    (attribs : Object) (enum_ty : ItemEnum) : Except Err EnumOutput :=
  match lookupEntries (adjustAttribs attribs enum_ty).entries "format" with
  | some fmt => .error ⟨some fmt.span, "illegal key format, will be autogenerated"⟩
  | none =>
    match schemaBuild (adjustAttribs attribs enum_ty) with
    | .error e => .error e
    | .ok schema =>
      match collectVariants [] enum_ty.variants with
      | .error e => .error e
      | .ok names =>
        .ok ⟨enum_ty, enum_ty.ident, enum_ty.identSpan, schema, names⟩

/-- The rename extraction of one argument, as a pure specification
function: the string literal of a rename name-value pair. -/
def argRename (g : NestedMeta) : Option LitStr :=
  match g with
  | NestedMeta.nameValue p (Lit.str s sp) => if p == "rename" then some ⟨s, sp⟩ else none
  | _ => none

/-- Whether one argument avoids the rename-with-non-string error. -/
def argOk (g : NestedMeta) : Bool :=
  match g with
  | NestedMeta.nameValue p (Lit.otherLit _) => !(p == "rename")
  | _ => true

/-- All rename string literals a variant carries inside its serde
attributes, in order. -/
def serdeRenames : List Attr → List LitStr
  | [] => []
  | a :: rest =>
    (if a.pathIdent == "serde" then a.args.filterMap argRename else []) ++ serdeRenames rest

/-- The rename literals of one variant. -/
def renameStrs (v : Variant) : List LitStr :=
  serdeRenames v.attrs

/-- The display name of a variant: its first rename literal when one
exists, otherwise its own identifier. -/
def displayName (v : Variant) : LitStr :=
  match renameStrs v with
  | [] => ⟨v.ident, v.identSpan⟩
  | l :: _ => l

/-- A well-behaved variant: unit shape, no rename argument with a
non-string literal inside a serde attribute, and at most one rename
argument overall. -/
def variantOk (v : Variant) : Bool :=
  (match v.fields with | Fields.unit => true | Fields.nonUnit => false)
  && v.attrs.all (fun a => !(a.pathIdent == "serde") || a.args.all argOk)
  && (match renameStrs v with | [] => true | [_] => true | _ :: _ :: _ => false)

/-- A variant whose scan succeeds: unit shape and a successful name
resolution. -/
def variantScans (v : Variant) : Bool :=
  (match v.fields with | Fields.unit => true | Fields.nonUnit => false)
  && isOkE (resolveVariantNames v)

/-- A successful lookup is preserved by appending entries. -/
theorem lookupEntries_append_some : ∀ (l l2 : List Entry) (k : String) (v : Value),
    lookupEntries l k = some v → lookupEntries (l ++ l2) k = some v
  | [], _, _, _, h => by simp [lookupEntries] at h
  | (k0, sp0, v0) :: rest, l2, k, v, h => by
    simp only [List.cons_append]
    unfold lookupEntries at h ⊢
    cases hk : (k0 == k) with
    | true => rw [hk] at h; simpa using h
    | false =>
      rw [hk] at h
      simp only [Bool.false_eq_true, if_false] at h ⊢
      exact lookupEntries_append_some rest l2 k v h

/-- A failed lookup is preserved by appending an entry with a different
key. -/
theorem lookupEntries_append_none : ∀ (l : List Entry) (k k2 : String) (sp2 : Span) (v2 : Value),
    lookupEntries l k = none → (k2 == k) = false →
    lookupEntries (l ++ [(k2, sp2, v2)]) k = none
  | [], k, k2, sp2, v2, _, hne => by simp [lookupEntries, hne]
  | (k0, sp0, v0) :: rest, k, k2, sp2, v2, h, hne => by
    simp only [List.cons_append]
    unfold lookupEntries at h ⊢
    cases hk : (k0 == k) with
    | true => rw [hk] at h; simp at h
    | false =>
      rw [hk] at h
      simp only [Bool.false_eq_true, if_false] at h ⊢
      exact lookupEntries_append_none rest k k2 sp2 v2 h hne

/-- Unfolding equation for lookup at a cons cell. -/
theorem lookupEntries_cons (k0 : String) (sp0 : Span) (v0 : Value)
    (rest : List Entry) (key : String) :
    lookupEntries ((k0, sp0, v0) :: rest) key
      = if k0 == key then some v0 else lookupEntries rest key :=
  rfl

/-- Unfolding equation for removal at a cons cell. -/
theorem removeFirst_cons (k0 : String) (sp0 : Span) (v0 : Value)
    (rest : List Entry) (key : String) :
    removeFirst ((k0, sp0, v0) :: rest) key
      = if k0 == key then rest else (k0, sp0, v0) :: removeFirst rest key :=
  rfl

/-- Removing the first occurrence of one key does not change the lookup
of a different key. -/
theorem lookupEntries_removeFirst_ne : ∀ (l : List Entry) (k kr : String),
    (k == kr) = false →
    lookupEntries (removeFirst l kr) k = lookupEntries l k
  | [], _, _, _ => rfl
  | (k0, sp0, v0) :: rest, k, kr, h => by
    rw [removeFirst_cons]
    cases hr : (k0 == kr) with
    | true =>
      simp only [hr, if_true]
      rw [lookupEntries_cons]
      have hk0 : (k0 == k) = false := by
        cases hkk : (k0 == k) with
        | false => rfl
        | true =>
          exfalso
          have e1 : k0 = kr := by simpa using hr
          have e2 : k0 = k := by simpa using hkk
          rw [← e2, e1] at h
          simp at h
      rw [hk0]
      simp
    | false =>
      simp only [hr, Bool.false_eq_true, if_false]
      rw [lookupEntries_cons, lookupEntries_cons]
      cases hk : (k0 == k) with
      | true => simp [hk]
      | false =>
        simp only [hk, Bool.false_eq_true, if_false]
        exact lookupEntries_removeFirst_ne rest k kr h

/-- An unrecognized key makes the entry dispatch fail, naming the key
at its span. -/
theorem parseEntry_unrecognized (k : String) (ksp : Span) (v : Value)
    (hk : recognizedKey k = false) :
    parseEntry (k, ksp, v)
      = Except.error ⟨some ksp, "invalid key in type definition: " ++ k⟩ := by
  unfold recognizedKey at hk
  simp only [Bool.or_eq_false_iff] at hk
  obtain ⟨⟨⟨⟨⟨⟨⟨⟨⟨⟨⟨h1, h2⟩, h3⟩, h4⟩, h5⟩, h6⟩, h7⟩, h8⟩, h9⟩, h10⟩, h11⟩, h12⟩ := hk
  unfold parseEntry
  simp only [h1, h2, h3, h4, h5, h6, h7, h8, h9, h10, h11, h12,
    Bool.false_eq_true, if_false]

/-- When every entry of a list parses, the builder loop succeeds. -/
theorem applyEntries_ok : ∀ (l : List Entry) (b : ParameterDefinitionBuilder),
    (∀ e ∈ l, isOkE (parseEntry e) = true) →
    ∃ b2, applyEntries b l = Except.ok b2
  | [], b, _ => ⟨b, rfl⟩
  | e :: rest, b, h => by
    have he : isOkE (parseEntry e) = true := h e (List.mem_cons_self _ _)
    unfold applyEntries
    cases hp : parseEntry e with
    | ok u =>
      exact applyEntries_ok rest (applyUpdate b u)
        fun e2 he2 => h e2 (List.mem_cons_of_mem _ he2)
    | error er => rw [hp] at he; simp [isOkE] at he

/-- A prefix of parsing entries postpones but does not change a failure
of the remaining entries. -/
theorem applyEntries_prefix_error (tail : List Entry) (err : Err)
    (htail : ∀ b, applyEntries b tail = Except.error err) :
    ∀ (pre : List Entry) (b : ParameterDefinitionBuilder),
      (∀ e ∈ pre, isOkE (parseEntry e) = true) →
      applyEntries b (pre ++ tail) = Except.error err
  | [], b, _ => htail b
  | e :: rest, b, h => by
    have he : isOkE (parseEntry e) = true := h e (List.mem_cons_self _ _)
    simp only [List.cons_append]
    unfold applyEntries
    cases hp : parseEntry e with
    | ok u =>
      exact applyEntries_prefix_error tail err htail rest (applyUpdate b u)
        fun e2 he2 => h e2 (List.mem_cons_of_mem _ he2)
    | error er => rw [hp] at he; simp [isOkE] at he

/-- Claim C1 counterexample: in the Object that supplies the
serialization sugar key first and an explicit serialize_with key
afterwards, the explicit key wins, so the serialization expansion does
not overwrite it; the final serialize_with path is the explicit one
and differs from the expanded one. -/
theorem serialization_order_cex :
    ParameterDefinition.from_object
        ⟨0, [("serialization", 1, Value.pathV ["p"] 2),
             ("serialize_with", 3, Value.pathV ["q"] 4)]⟩
      = Except.ok { serialize_with := some ⟨["q"], 4⟩,
                    deserialize_with := some ⟨["p", "deserialize"], 2⟩ }
    ∧ (some (⟨["q"], 4⟩ : Path) ≠ some (⟨["p", "serialize"], 2⟩ : Path)) :=
  ⟨rfl, by decide⟩

/-- Claim C1 (amended): the serialization expansion overwrites
serialize_with and deserialize_with values that appear earlier in the
Object; precedence is last-entry-in-object-order wins, so whenever the
serialization key is the last of the three, its expansion determines
both fields. -/
theorem serialization_last_write_wins (segs qs rs : List String)
    (psp qsp rsp sp k1 k2 k3 : Span) :
    ParameterDefinition.from_object
        ⟨sp, [("serialize_with", k1, Value.pathV qs qsp),
              ("deserialize_with", k2, Value.pathV rs rsp),
              ("serialization", k3, Value.pathV segs psp)]⟩
      = Except.ok { serialize_with := some ⟨segs ++ ["serialize"], psp⟩,
                    deserialize_with := some ⟨segs ++ ["deserialize"], psp⟩ } :=
  rfl

/-- Claim C6: for every path value, building a ParameterDefinition from
the Object carrying only the serialization sugar key equals building
it from the Object carrying the expanded serialize_with and
deserialize_with keys; both set exactly those two fields and leave all
others unset. -/
theorem serialization_sugar_equiv (segs : List String) (psp sp1 sp2 k1 k2 k3 : Span) :
    ParameterDefinition.from_object
        ⟨sp1, [("serialization", k1, Value.pathV segs psp)]⟩
      = ParameterDefinition.from_object
          ⟨sp2, [("serialize_with", k2, Value.pathV (segs ++ ["serialize"]) psp),
                 ("deserialize_with", k3, Value.pathV (segs ++ ["deserialize"]) psp)]⟩
    ∧ ParameterDefinition.from_object
        ⟨sp1, [("serialization", k1, Value.pathV segs psp)]⟩
      = Except.ok { serialize_with := some ⟨segs ++ ["serialize"], psp⟩,
                    deserialize_with := some ⟨segs ++ ["deserialize"], psp⟩ } :=
  ⟨rfl, rfl⟩

/-- Claim C8 counterexample: an Object holding an unrecognized key foo
after a recognized key whose value does not coerce fails with the type
mismatch of the earlier entry, not with the unknown-key error naming
foo. -/
theorem unknown_key_cex :
    ParameterDefinition.from_object
        ⟨0, [("description", 1, Value.boolLit true 2),
             ("foo", 3, Value.strLit "x" 4)]⟩
      = Except.error ⟨some 2, "expected string literal"⟩
    ∧ ((⟨some 2, "expected string literal"⟩ : Err)
        ≠ ⟨some 3, "invalid key in type definition: foo"⟩) :=
  ⟨rfl, by decide⟩

/-- Claim C8 (amended): for every Object containing an unrecognized
key, provided every entry before that key is recognized and its value
coerces, from_object fails with the unknown-key error naming that key
and pointing at its span. -/
theorem unknown_key_first_error (objSpan : Span) (pre rest : List Entry)
    (k : String) (ksp : Span) (v : Value)
    (hk : recognizedKey k = false)
    (hpre : ∀ e ∈ pre, isOkE (parseEntry e) = true) :
    ParameterDefinition.from_object ⟨objSpan, pre ++ (k, ksp, v) :: rest⟩
      = Except.error ⟨some ksp, "invalid key in type definition: " ++ k⟩ := by
  unfold ParameterDefinition.from_object
  rw [applyEntries_prefix_error ((k, ksp, v) :: rest) _ ?_ pre {} hpre]
  intro b
  unfold applyEntries
  rw [parseEntry_unrecognized k ksp v hk]

/-- Witness for claim C8: the theorem applied to a concrete Object with
one coercing description entry before the unknown key foo. -/
theorem unknown_key_first_error_witness :
    ParameterDefinition.from_object
        ⟨0, [("description", 1, Value.strLit "d" 2),
             ("foo", 3, Value.strLit "x" 4)]⟩
      = Except.error ⟨some 3, "invalid key in type definition: foo"⟩ :=
  unknown_key_first_error 0 [("description", 1, Value.strLit "d" 2)] []
    "foo" 3 (Value.strLit "x" 4) (by decide) (by decide)

/-- Claim C10: every builder field has a default, so from_object
succeeds on every Object whose entries all parse, the empty Object
yields the all-unset definition, and builder finalization never
fails. -/
theorem parameter_builder_total :
    (∀ obj : Object, (∀ e ∈ obj.entries, isOkE (parseEntry e) = true) →
      isOkE (ParameterDefinition.from_object obj) = true)
    ∧ (∀ sp : Span, ParameterDefinition.from_object ⟨sp, []⟩ = Except.ok {})
    ∧ (∀ b : ParameterDefinitionBuilder, isOkE b.build = true) := by
  refine ⟨?_, fun sp => rfl, fun b => rfl⟩
  intro obj h
  obtain ⟨b2, hb⟩ := applyEntries_ok obj.entries {} h
  unfold ParameterDefinition.from_object
  rw [hb]
  rfl

/-- Witness for claim C10: the theorem applied to a concrete Object
with one recognized, coercing entry. -/
theorem parameter_builder_total_witness :
    isOkE (ParameterDefinition.from_object ⟨0, [("maximum", 1, Value.exprV "2" 2)]⟩)
      = true :=
  parameter_builder_total.1 ⟨0, [("maximum", 1, Value.exprV "2" 2)]⟩ (by decide)

/-- Claim C3: CLI mode resolution maps the boolean true to ParseCli,
the boolean false to Disabled, the bare FromStr identifier to FromStr,
and any other value accepted as a code expression to Function of that
expression; a boolean literal never resolves to Function, and an
Object without a cli key yields the ParseCli default in the common
type definition. -/
theorem cli_mode_resolution :
    (∀ sp, CliMode.tryFrom (Value.boolLit true sp) = Except.ok CliMode.parseCli)
    ∧ (∀ sp, CliMode.tryFrom (Value.boolLit false sp) = Except.ok CliMode.disabled)
    ∧ (∀ sp, CliMode.tryFrom (Value.identV "FromStr" sp) = Except.ok CliMode.fromStr)
    ∧ (∀ v e, Value.is_ident v "FromStr" = false → Value.is_lit_bool v = none →
        Value.expect_expr v = Except.ok e →
        CliMode.tryFrom v = Except.ok (CliMode.function e))
    ∧ (∀ b sp e, CliMode.tryFrom (Value.boolLit b sp) ≠ Except.ok (CliMode.function e))
    ∧ (∀ (obj : Object) (r : CommonTypeDefinition) (rest : Object),
        lookupEntries obj.entries "cli" = none →
        CommonTypeDefinition.from_object obj = Except.ok (r, rest) →
        r.cli = CliMode.parseCli) := by
  refine ⟨fun sp => rfl, fun sp => rfl, fun sp => rfl, ?_, ?_, ?_⟩
  · intro v e h1 h2 h3
    unfold CliMode.tryFrom
    rw [h1, h2, h3]
    simp
  · intro b sp e h
    cases b <;> simp [CliMode.tryFrom, Value.is_ident, Value.is_lit_bool] at h
  · intro obj r rest hcli hok
    have hcli2 : lookupEntries (removeFirst obj.entries "description") "cli" = none := by
      rw [lookupEntries_removeFirst_ne _ _ _ (by decide)]
      exact hcli
    unfold CommonTypeDefinition.from_object at hok
    rw [hcli2] at hok
    cases hd : lookupEntries obj.entries "description" with
    | none =>
      simp only [hd, CommonTypeDefinitionBuilder.build] at hok
      simp at hok
    | some dv =>
      simp only [hd] at hok
      cases he : dv.expect_lit_str with
      | error er => simp only [he, Except.map] at hok; simp at hok
      | ok s =>
        simp only [he, Except.map, CommonTypeDefinitionBuilder.build] at hok
        simp only [Except.ok.injEq, Prod.mk.injEq] at hok
        obtain ⟨h1, -⟩ := hok
        rw [← h1]
        rfl

/-- Witness for claim C3: the function fallback at a concrete
expression value and the ParseCli default on a concrete Object without
a cli key. -/
theorem cli_mode_resolution_witness :
    CliMode.tryFrom (Value.exprV "f" 3) = Except.ok (CliMode.function (Value.exprV "f" 3))
    ∧ (CommonTypeDefinition.mk ⟨"d", 2⟩ CliMode.parseCli).cli = CliMode.parseCli :=
  ⟨cli_mode_resolution.2.2.2.1 (Value.exprV "f" 3) (Value.exprV "f" 3) rfl rfl rfl,
   cli_mode_resolution.2.2.2.2.2 ⟨0, [("description", 1, Value.strLit "d" 2)]⟩
     (CommonTypeDefinition.mk ⟨"d", 2⟩ CliMode.parseCli) ⟨0, []⟩ rfl rfl⟩

/-- Claim C7 counterexample: an Object whose description is present and
coerces to a string literal but whose cli value is a nested object
makes construction fail, so a present, coercing description alone does
not make construction succeed. -/
theorem common_def_cli_cex :
    lookupEntries [("description", 1, Value.strLit "d" 2), ("cli", 3, Value.object 4 [])]
        "description" = some (Value.strLit "d" 2)
    ∧ isOkE (CommonTypeDefinition.from_object
        ⟨0, [("description", 1, Value.strLit "d" 2), ("cli", 3, Value.object 4 [])]⟩) = false :=
  ⟨rfl, rfl⟩

/-- Claim C7 (amended): construction never succeeds without a
description; when the description is absent and the cli value, if
present, resolves to a CLI mode, from_object fails with the
missing-field error; when the description is present as a string
literal and the cli value, if present, resolves, construction succeeds
with that description. -/
theorem common_def_description_required :
    (∀ obj : Object, lookupEntries obj.entries "description" = none →
      ∀ r, CommonTypeDefinition.from_object obj ≠ Except.ok r)
    ∧ (∀ obj : Object, lookupEntries obj.entries "description" = none →
      (∀ v, lookupEntries obj.entries "cli" = some v → isOkE (CliMode.tryFrom v) = true) →
      CommonTypeDefinition.from_object obj
        = Except.error ⟨none, "field description must be initialized"⟩)
    ∧ (∀ (obj : Object) (s : String) (ssp : Span),
      lookupEntries obj.entries "description" = some (Value.strLit s ssp) →
      (∀ v, lookupEntries obj.entries "cli" = some v → isOkE (CliMode.tryFrom v) = true) →
      ∃ r rest, CommonTypeDefinition.from_object obj = Except.ok (r, rest)
        ∧ r.description = ⟨s, ssp⟩) := by
  refine ⟨?_, ?_, ?_⟩
  · intro obj hd r hok
    unfold CommonTypeDefinition.from_object at hok
    simp only [hd] at hok
    cases hc : lookupEntries (removeFirst obj.entries "description") "cli" with
    | none =>
      simp only [hc, CommonTypeDefinitionBuilder.build] at hok
      simp at hok
    | some v =>
      simp only [hc] at hok
      cases ht : CliMode.tryFrom v with
      | error er => simp only [ht, Except.map] at hok; simp at hok
      | ok m =>
        simp only [ht, Except.map, CommonTypeDefinitionBuilder.build] at hok
        simp at hok
  · intro obj hd hcli
    have hcr : lookupEntries (removeFirst obj.entries "description") "cli"
        = lookupEntries obj.entries "cli" :=
      lookupEntries_removeFirst_ne _ _ _ (by decide)
    unfold CommonTypeDefinition.from_object
    rw [hcr]
    simp only [hd]
    cases hc : lookupEntries obj.entries "cli" with
    | none => simp only [hc]; rfl
    | some v =>
      have hv := hcli v hc
      simp only [hc]
      cases ht : CliMode.tryFrom v with
      | error er => rw [ht] at hv; simp [isOkE] at hv
      | ok m => simp only [ht, Except.map, CommonTypeDefinitionBuilder.build]
  · intro obj s ssp hd hcli
    have hcr : lookupEntries (removeFirst obj.entries "description") "cli"
        = lookupEntries obj.entries "cli" :=
      lookupEntries_removeFirst_ne _ _ _ (by decide)
    unfold CommonTypeDefinition.from_object
    rw [hcr]
    simp only [hd, Value.expect_lit_str, Except.map]
    cases hc : lookupEntries obj.entries "cli" with
    | none =>
      simp only [hc, CommonTypeDefinitionBuilder.build]
      exact ⟨_, _, rfl, rfl⟩
    | some v =>
      have hv := hcli v hc
      simp only [hc]
      cases ht : CliMode.tryFrom v with
      | error er => rw [ht] at hv; simp [isOkE] at hv
      | ok m =>
        simp only [ht, Except.map, CommonTypeDefinitionBuilder.build]
        exact ⟨_, _, rfl, rfl⟩

/-- Witness for claim C7: the missing-field error on the empty Object
and success with the given description on a concrete Object. -/
theorem common_def_description_required_witness :
    CommonTypeDefinition.from_object ⟨7, []⟩
      = Except.error ⟨none, "field description must be initialized"⟩
    ∧ ∃ r rest, CommonTypeDefinition.from_object
        ⟨0, [("description", 1, Value.strLit "d" 2)]⟩ = Except.ok (r, rest)
        ∧ r.description = ⟨"d", 2⟩ :=
  ⟨common_def_description_required.2.1 ⟨7, []⟩ rfl (fun v h => by simp [lookupEntries] at h),
   common_def_description_required.2.2 ⟨0, [("description", 1, Value.strLit "d" 2)]⟩
     "d" 2 rfl (fun v h => by simp [lookupEntries] at h)⟩

/-- The default type key insertion preserves a present format key. -/
theorem lookup_adjust_format_some (attribs : Object) (e : ItemEnum) (fmt : Value)
    (h : lookupEntries attribs.entries "format" = some fmt) :
    lookupEntries (adjustAttribs attribs e).entries "format" = some fmt := by
  unfold adjustAttribs
  by_cases hc : attribs.containsKey "type" = true
  · rw [if_pos hc]
    exact h
  · rw [if_neg hc]
    exact lookupEntries_append_some _ _ _ _ h

/-- Claim C4: an annotation Object that contains the format key makes
handle_enum fail with the reserved-key diagnostic at the value span of
that key, for every schema collaborator, every remaining annotation
content and every enum. -/
theorem enum_format_reserved (sb : Object → Except Err TokenStream)
    (attribs : Object) (e : ItemEnum) (fmt : Value)
    (h : lookupEntries attribs.entries "format" = some fmt) :
    handle_enum sb attribs e
      = Except.error ⟨some fmt.span, "illegal key format, will be autogenerated"⟩ := by
  unfold handle_enum
  rw [lookup_adjust_format_some attribs e fmt h]

/-- Witness for claim C4: a concrete annotation Object carrying a
format key. -/
theorem enum_format_reserved_witness :
    handle_enum (fun _ => Except.ok ⟨"S"⟩)
        ⟨0, [("format", 1, Value.strLit "x" 2)]⟩ ⟨"E", 0, 0, []⟩
      = Except.error ⟨some 2, "illegal key format, will be autogenerated"⟩ :=
  enum_format_reserved (fun _ => Except.ok ⟨"S"⟩)
    ⟨0, [("format", 1, Value.strLit "x" 2)]⟩ ⟨"E", 0, 0, []⟩
    (Value.strLit "x" 2) rfl

/-- Unfolding equation for the variant loop at a unit variant. -/
theorem collectVariants_cons_unit (acc : List LitStr) (v : Variant)
    (rest : List Variant) (hvf : v.fields = Fields.unit) :
    collectVariants acc (v :: rest)
      = match resolveVariantNames v with
        | Except.ok ns => collectVariants (acc ++ ns) rest
        | Except.error e => Except.error e := by
  conv_lhs => unfold collectVariants
  rw [hvf]

/-- Unfolding equation for the variant loop at a non-unit variant. -/
theorem collectVariants_cons_nonunit (acc : List LitStr) (v : Variant)
    (rest : List Variant) (hvf : v.fields = Fields.nonUnit) :
    collectVariants acc (v :: rest)
      = Except.error ⟨some v.span, "api macro does not support enums with fields"⟩ := by
  unfold collectVariants
  rw [hvf]

/-- A prefix of scanning unit variants postpones but does not change
the failure on the first non-unit variant. -/
theorem collectVariants_prefix_err (bad : Variant) (post : List Variant)
    (hbad : bad.fields = Fields.nonUnit) :
    ∀ (pre : List Variant) (acc : List LitStr), pre.all variantScans = true →
      collectVariants acc (pre ++ bad :: post)
        = Except.error ⟨some bad.span, "api macro does not support enums with fields"⟩
  | [], acc, _ => by
    simp only [List.nil_append]
    exact collectVariants_cons_nonunit acc bad post hbad
  | v :: rest, acc, h => by
    simp only [List.all_cons, Bool.and_eq_true] at h
    obtain ⟨hv, hrest⟩ := h
    unfold variantScans at hv
    simp only [Bool.and_eq_true] at hv
    obtain ⟨hf, hres⟩ := hv
    have hvf : v.fields = Fields.unit := by
      cases hvf2 : v.fields with
      | unit => rfl
      | nonUnit => rw [hvf2] at hf; simp at hf
    simp only [List.cons_append]
    rw [collectVariants_cons_unit acc v _ hvf]
    cases hr : resolveVariantNames v with
    | error er => rw [hr] at hres; simp [isOkE] at hres
    | ok ns => exact collectVariants_prefix_err bad post hbad rest (acc ++ ns) hrest

/-- Claim C5: when the format key is absent, the schema collaborator
succeeds, and every variant before the first non-unit variant is a
unit variant whose attribute scan succeeds, an enum containing a
non-unit variant makes handle_enum fail with the unsupported-variant
diagnostic at that variant, emitting nothing. -/
theorem enum_nonunit_fatal (sb : Object → Except Err TokenStream)
    (attribs : Object) (e : ItemEnum) (ts : TokenStream)
    (pre post : List Variant) (bad : Variant)
    (hfmt : lookupEntries (adjustAttribs attribs e).entries "format" = none)
    (hsb : sb (adjustAttribs attribs e) = Except.ok ts)
    (hvars : e.variants = pre ++ bad :: post)
    (hbad : bad.fields = Fields.nonUnit)
    (hpre : pre.all variantScans = true) :
    handle_enum sb attribs e
      = Except.error ⟨some bad.span, "api macro does not support enums with fields"⟩ := by
  unfold handle_enum
  rw [hfmt, hsb, hvars, collectVariants_prefix_err bad post hbad pre [] hpre]

/-- Witness for claim C5: a concrete enum whose second variant carries
fields. -/
theorem enum_nonunit_fatal_witness :
    handle_enum (fun _ => Except.ok ⟨"S"⟩) ⟨0, []⟩
        ⟨"E", 5, 6, [⟨"A", 1, 7, [], Fields.unit⟩, ⟨"B", 2, 8, [], Fields.nonUnit⟩]⟩
      = Except.error ⟨some 8, "api macro does not support enums with fields"⟩ :=
  enum_nonunit_fatal (fun _ => Except.ok ⟨"S"⟩) ⟨0, []⟩
    ⟨"E", 5, 6, [⟨"A", 1, 7, [], Fields.unit⟩, ⟨"B", 2, 8, [], Fields.nonUnit⟩]⟩
    ⟨"S"⟩ [⟨"A", 1, 7, [], Fields.unit⟩] [] ⟨"B", 2, 8, [], Fields.nonUnit⟩
    rfl rfl rfl rfl rfl

/-- Claim C9: whenever handle_enum succeeds, the emitted output carries
the input enum definition unchanged, and the impl block it adds
targets exactly the enum type by name. -/
theorem enum_output_frame (sb : Object → Except Err TokenStream)
    (attribs : Object) (e : ItemEnum) (out : EnumOutput)
    (h : handle_enum sb attribs e = Except.ok out) :
    out.enumDef = e ∧ out.name = e.ident ∧ out.nameSpan = e.identSpan := by
  unfold handle_enum at h
  cases hf : lookupEntries (adjustAttribs attribs e).entries "format" with
  | some fmt => rw [hf] at h; simp at h
  | none =>
    rw [hf] at h
    cases hs : sb (adjustAttribs attribs e) with
    | error er => rw [hs] at h; simp at h
    | ok ts =>
      rw [hs] at h
      cases hc : collectVariants [] e.variants with
      | error er => rw [hc] at h; simp at h
      | ok names =>
        rw [hc] at h
        cases h
        exact ⟨rfl, rfl, rfl⟩

/-- Witness for claim C9: a concrete successful run of handle_enum. -/
theorem enum_output_frame_witness :
    (⟨⟨"E9", 1, 2, [⟨"A", 3, 4, [], Fields.unit⟩]⟩, "E9", 1, ⟨"S"⟩,
        [⟨"A", 3⟩]⟩ : EnumOutput).enumDef
      = ⟨"E9", 1, 2, [⟨"A", 3, 4, [], Fields.unit⟩]⟩
    ∧ (⟨⟨"E9", 1, 2, [⟨"A", 3, 4, [], Fields.unit⟩]⟩, "E9", 1, ⟨"S"⟩,
        [⟨"A", 3⟩]⟩ : EnumOutput).name
      = (⟨"E9", 1, 2, [⟨"A", 3, 4, [], Fields.unit⟩]⟩ : ItemEnum).ident
    ∧ (⟨⟨"E9", 1, 2, [⟨"A", 3, 4, [], Fields.unit⟩]⟩, "E9", 1, ⟨"S"⟩,
        [⟨"A", 3⟩]⟩ : EnumOutput).nameSpan
      = (⟨"E9", 1, 2, [⟨"A", 3, 4, [], Fields.unit⟩]⟩ : ItemEnum).identSpan :=
  enum_output_frame (fun _ => Except.ok ⟨"S"⟩) ⟨0, []⟩
    ⟨"E9", 1, 2, [⟨"A", 3, 4, [], Fields.unit⟩]⟩
    ⟨⟨"E9", 1, 2, [⟨"A", 3, 4, [], Fields.unit⟩]⟩, "E9", 1, ⟨"S"⟩, [⟨"A", 3⟩]⟩ rfl

/-- Emptiness of an appended name list. -/
theorem isEmpty_append_bool (l1 l2 : List LitStr) :
    (l1 ++ l2).isEmpty = (l1.isEmpty && l2.isEmpty) := by
  cases l1 <;> simp

/-- The argument scan accumulates exactly the rename string literals,
and the renamed flag records whether any were found. -/
theorem scanArgs_spec : ∀ (args : List NestedMeta) (acc : List LitStr) (flag : Bool),
    args.all argOk = true →
    scanArgs (acc, flag) args
      = Except.ok (acc ++ args.filterMap argRename,
          flag || !(args.filterMap argRename).isEmpty)
  | [], acc, flag, _ => by simp [scanArgs]
  | NestedMeta.nameValue p lit :: rest, acc, flag, h => by
    simp only [List.all_cons, Bool.and_eq_true] at h
    obtain ⟨hg, hrest⟩ := h
    cases hp : (p == "rename") with
    | true =>
      cases lit with
      | str s sp =>
        have step : scanArgs (acc, flag) (NestedMeta.nameValue p (Lit.str s sp) :: rest)
            = scanArgs (acc ++ [⟨s, sp⟩], true) rest := by
          simp [scanArgs, hp]
        rw [step, scanArgs_spec rest (acc ++ [LitStr.mk s sp]) true hrest]
        simp [List.filterMap_cons, argRename, hp, List.append_assoc]
      | otherLit sp => simp [argOk, hp] at hg
    | false =>
      have step : scanArgs (acc, flag) (NestedMeta.nameValue p lit :: rest)
          = scanArgs (acc, flag) rest := by
        simp [scanArgs, hp]
      have hnone : argRename (NestedMeta.nameValue p lit) = none := by
        cases lit <;> simp [argRename, hp]
      rw [step, scanArgs_spec rest acc flag hrest]
      simp [List.filterMap_cons, hnone]
  | NestedMeta.otherMeta sp :: rest, acc, flag, h => by
    simp only [List.all_cons, Bool.and_eq_true] at h
    have step : scanArgs (acc, flag) (NestedMeta.otherMeta sp :: rest)
        = scanArgs (acc, flag) rest := rfl
    rw [step, scanArgs_spec rest acc flag h.2]
    simp [List.filterMap_cons, argRename]

/-- The attribute scan over the serde attributes accumulates exactly
the rename string literals of the variant, and the renamed flag
records whether any were found. -/
theorem scanAttrs_spec : ∀ (attrs : List Attr) (acc : List LitStr) (flag : Bool),
    attrs.all (fun a => !(a.pathIdent == "serde") || a.args.all argOk) = true →
    scanAttrs (acc, flag) attrs
      = Except.ok (acc ++ serdeRenames attrs, flag || !(serdeRenames attrs).isEmpty)
  | [], acc, flag, _ => by simp [scanAttrs, serdeRenames]
  | a :: rest, acc, flag, h => by
    simp only [List.all_cons, Bool.and_eq_true] at h
    obtain ⟨ha, hrest⟩ := h
    cases hs : (a.pathIdent == "serde") with
    | true =>
      have hargs : a.args.all argOk = true := by
        rw [hs] at ha
        simpa using ha
      have step : scanAttrs (acc, flag) (a :: rest)
          = scanAttrs (acc ++ a.args.filterMap argRename,
              flag || !(a.args.filterMap argRename).isEmpty) rest := by
        simp only [scanAttrs, hs, if_true]
        rw [scanArgs_spec a.args acc flag hargs]
      have hser : serdeRenames (a :: rest)
          = a.args.filterMap argRename ++ serdeRenames rest := by
        simp [serdeRenames, hs]
      rw [step, scanAttrs_spec rest _ _ hrest, hser, isEmpty_append_bool]
      simp [List.append_assoc, Bool.not_and, Bool.or_assoc]
    | false =>
      have step : scanAttrs (acc, flag) (a :: rest) = scanAttrs (acc, flag) rest := by
        simp [scanAttrs, hs]
      have hser : serdeRenames (a :: rest) = serdeRenames rest := by
        simp [serdeRenames, hs]
      rw [step, scanAttrs_spec rest acc flag hrest, hser]

/-- A well-behaved variant is a unit variant and resolves to exactly
its display name. -/
theorem resolveVariantNames_of_ok (v : Variant) (h : variantOk v = true) :
    v.fields = Fields.unit ∧ resolveVariantNames v = Except.ok [displayName v] := by
  unfold variantOk at h
  simp only [Bool.and_eq_true] at h
  obtain ⟨⟨h1, h2⟩, h3⟩ := h
  refine ⟨?_, ?_⟩
  · cases hf : v.fields with
    | unit => rfl
    | nonUnit => rw [hf] at h1; simp at h1
  · unfold resolveVariantNames
    rw [scanAttrs_spec v.attrs [] false h2]
    simp only [List.nil_append, Bool.false_or]
    unfold renameStrs at h3
    unfold displayName renameStrs
    cases hr : serdeRenames v.attrs with
    | nil => simp [hr]
    | cons l t =>
      cases t with
      | nil => simp [hr]
      | cons l2 t2 => rw [hr] at h3; simp at h3

/-- Unfolding equation for the variant loop at a resolving unit
variant. -/
theorem collectVariants_cons_unit_ok (acc : List LitStr) (v : Variant)
    (rest : List Variant) (hvf : v.fields = Fields.unit) (ns : List LitStr)
    (hres : resolveVariantNames v = Except.ok ns) :
    collectVariants acc (v :: rest) = collectVariants (acc ++ ns) rest := by
  rw [collectVariants_cons_unit acc v rest hvf, hres]

/-- Over a list of well-behaved variants the loop appends exactly one
display name per variant, in declaration order. -/
theorem collectVariants_ok : ∀ (l : List Variant) (acc : List LitStr),
    l.all variantOk = true →
    collectVariants acc l = Except.ok (acc ++ l.map displayName)
  | [], acc, _ => by simp [collectVariants]
  | v :: rest, acc, h => by
    simp only [List.all_cons, Bool.and_eq_true] at h
    obtain ⟨hv, hrest⟩ := h
    obtain ⟨hf, hres⟩ := resolveVariantNames_of_ok v hv
    rw [collectVariants_cons_unit_ok acc v rest hf [displayName v] hres,
      collectVariants_ok rest (acc ++ [displayName v]) hrest]
    simp

/-- Claim C2 counterexample: a unit variant carrying two rename
arguments inside one serde attribute contributes two names to the
emitted enum-string list, so the list holds two names for an enum of
one variant. -/
theorem multi_rename_cex :
    handle_enum (fun _ => Except.ok ⟨"S"⟩) ⟨0, []⟩
        ⟨"E", 5, 6, [⟨"Foo", 1, 7,
          [⟨"serde", [NestedMeta.nameValue "rename" (Lit.str "a" 2),
                      NestedMeta.nameValue "rename" (Lit.str "b" 3)]⟩],
          Fields.unit⟩]⟩
      = Except.ok ⟨⟨"E", 5, 6, [⟨"Foo", 1, 7,
          [⟨"serde", [NestedMeta.nameValue "rename" (Lit.str "a" 2),
                      NestedMeta.nameValue "rename" (Lit.str "b" 3)]⟩],
          Fields.unit⟩]⟩, "E", 5, ⟨"S"⟩, [⟨"a", 2⟩, ⟨"b", 3⟩]⟩
    ∧ ([⟨"a", 2⟩, ⟨"b", 3⟩] : List LitStr).length ≠
        ([⟨"Foo", 1, 7,
          [⟨"serde", [NestedMeta.nameValue "rename" (Lit.str "a" 2),
                      NestedMeta.nameValue "rename" (Lit.str "b" 3)]⟩],
          Fields.unit⟩] : List Variant).length :=
  ⟨rfl, by decide⟩

/-- Claim C2 (amended): for every enum of unit variants in which each
variant carries at most one rename argument inside its serde
attributes and every rename value is a string literal, handle_enum,
when the format key is absent and the schema collaborator succeeds,
emits exactly one display name per variant in declaration order: the
rename literal when present, the variant identifier otherwise. -/
theorem enum_variant_names (sb : Object → Except Err TokenStream)
    (attribs : Object) (e : ItemEnum) (ts : TokenStream)
    (hfmt : lookupEntries (adjustAttribs attribs e).entries "format" = none)
    (hsb : sb (adjustAttribs attribs e) = Except.ok ts)
    (hv : e.variants.all variantOk = true) :
    handle_enum sb attribs e
      = Except.ok ⟨e, e.ident, e.identSpan, ts, e.variants.map displayName⟩
    ∧ (e.variants.map displayName).length = e.variants.length := by
  refine ⟨?_, by simp⟩
  unfold handle_enum
  rw [hfmt]
  show (match sb (adjustAttribs attribs e) with
    | Except.error e2 => Except.error e2
    | Except.ok schema =>
      match collectVariants [] e.variants with
      | Except.error e2 => Except.error e2
      | Except.ok names =>
        Except.ok (EnumOutput.mk e e.ident e.identSpan schema names))
    = Except.ok (EnumOutput.mk e e.ident e.identSpan ts (e.variants.map displayName))
  rw [hsb]
  show (match collectVariants [] e.variants with
    | Except.error e2 => Except.error e2
    | Except.ok names => Except.ok (EnumOutput.mk e e.ident e.identSpan ts names))
    = Except.ok (EnumOutput.mk e e.ident e.identSpan ts (e.variants.map displayName))
  rw [collectVariants_ok e.variants [] hv]
  simp

/-- Witness for claim C2: a concrete enum with one plain variant and
one renamed variant. -/
theorem enum_variant_names_witness :
    handle_enum (fun _ => Except.ok ⟨"S"⟩) ⟨0, []⟩
        ⟨"E2", 1, 2, [⟨"Foo", 3, 4, [], Fields.unit⟩,
          ⟨"Bar", 5, 6, [⟨"serde", [NestedMeta.nameValue "rename" (Lit.str "bar" 7)]⟩],
            Fields.unit⟩]⟩
      = Except.ok ⟨⟨"E2", 1, 2, [⟨"Foo", 3, 4, [], Fields.unit⟩,
          ⟨"Bar", 5, 6, [⟨"serde", [NestedMeta.nameValue "rename" (Lit.str "bar" 7)]⟩],
            Fields.unit⟩]⟩, "E2", 1, ⟨"S"⟩,
          List.map displayName ([⟨"Foo", 3, 4, [], Fields.unit⟩,
            ⟨"Bar", 5, 6, [⟨"serde", [NestedMeta.nameValue "rename" (Lit.str "bar" 7)]⟩],
              Fields.unit⟩] : List Variant)⟩
    ∧ (List.map displayName [(⟨"Foo", 3, 4, [], Fields.unit⟩ : Variant),
        ⟨"Bar", 5, 6, [⟨"serde", [NestedMeta.nameValue "rename" (Lit.str "bar" 7)]⟩],
          Fields.unit⟩]).length
      = ([⟨"Foo", 3, 4, [], Fields.unit⟩,
          ⟨"Bar", 5, 6, [⟨"serde", [NestedMeta.nameValue "rename" (Lit.str "bar" 7)]⟩],
            Fields.unit⟩] : List Variant).length :=
  enum_variant_names (fun _ => Except.ok ⟨"S"⟩) ⟨0, []⟩
    ⟨"E2", 1, 2, [⟨"Foo", 3, 4, [], Fields.unit⟩,
      ⟨"Bar", 5, 6, [⟨"serde", [NestedMeta.nameValue "rename" (Lit.str "bar" 7)]⟩],
        Fields.unit⟩]⟩ ⟨"S"⟩ rfl rfl rfl

end Proxmox
